import Mathlib

/-!
# Verification of the stremcri addon core

Shallow embedding of the claim-relevant logic of the `sucka4ai/stremcri`
repository: the candidate selector (`chooseBest` in `src/unnamed/part_003`,
`chooseBestCandidate` in `src/server.js`), the TTL playlist cache
(`fetchPlaylist`), the health prober (`runHealthChecks`, `probeUrl`),
playlist normalization (`splitCandidates`, the `parseUserM3U` mapping),
the static fallback path and the proxy path rewrite.

Network effects (fetches, probes) are modelled by passing their outcomes
as explicit inputs; the in-memory `healthStatus` JavaScript `Map` is
modelled as an association list observed through `lookupHealth`;
the stable JavaScript `Array.prototype.sort` is modelled by a stable
insertion sort parameterized by the comparator relation "goes before or ties"
Boolean relation; JavaScript numbers holding millisecond timestamps are
modelled as naturals, and the score arithmetic of `chooseBest`
(`(s.ok ? 1000 : 0) - (s.lastChecked || 0) / 1000`) is scaled by 1000 into
exact `Int` arithmetic, which induces the same comparison results as the
IEEE doubles on all realistic timestamp magnitudes.
-/

namespace Stremcri

/-- A health-table record, as stored by `healthStatus.set` in
`src/unnamed/part_003` (ok, status, lastChecked) and `src/server.js`
(which additionally stores a latency; `latency := none` models the
absent/`null` latency of the part_003 records). -/
structure HealthRecord where
  ok : Bool
  status : Nat
  lastChecked : Nat
  latency : Option Nat
  deriving Repr, DecidableEq

/-- The `healthStatus` JavaScript `Map`, keyed by candidate URL.
`setHealth` prepends and `lookupHealth` takes the first match, which is
observationally the `Map.set` / `Map.get` behaviour. -/
abbrev HealthTable := List (String × HealthRecord)

def lookupHealth : HealthTable → String → Option HealthRecord
  | [], _ => none
  | (k, v) :: rest, u => if k = u then some v else lookupHealth rest u

def setHealth (tbl : HealthTable) (u : String) (r : HealthRecord) : HealthTable :=
  (u, r) :: tbl

/-- Stable insert: `x` goes before the first element `y` with `le x y`.
Used to model the stable JavaScript `Array.prototype.sort`, where
`le x y` means "the comparator does not place `x` strictly after `y`". -/
def insertBy {α : Type} (le : α → α → Bool) (x : α) : List α → List α
  | [] => [x]
  | y :: ys => if le x y then x :: y :: ys else y :: insertBy le x ys

/-- Stable sort (earlier elements are inserted last, so ties keep source
order exactly as the ES2019 stable `sort` does). -/
def sortBy {α : Type} (le : α → α → Bool) : List α → List α
  | [] => []
  | x :: xs => insertBy le x (sortBy le xs)

/-- Scored entry built by `chooseBest` in `src/unnamed/part_003`
lines 301-305: `const s = healthStatus.get(u) || { ok: null, lastChecked: 0 };
const score = (s.ok ? 1000 : 0) - (s.lastChecked || 0) / 1000;
return { u, ok: !!s.ok, lastChecked: s.lastChecked || 0, score };`.
The JS score is a double and is only ever used through order comparisons,
so it is embedded multiplied by 1000 into exact `Int` arithmetic:
`score1000 = (s.ok ? 1000000 : 0) - s.lastChecked`, which induces the same
order (scaling by 1000 is strictly monotone, and for millisecond
timestamps below 2^43 the correctly-rounded double division by 1000
separates distinct values, so the double comparisons agree). -/
structure Scored where
  u : String
  ok : Bool
  lastChecked : Nat
  score1000 : Int
  deriving Repr, DecidableEq

def scoredOf (tbl : HealthTable) (u : String) : Scored :=
  match lookupHealth tbl u with
  | some s =>
      { u := u, ok := s.ok, lastChecked := s.lastChecked,
        score1000 := (if s.ok then (1000000 : Int) else 0) - (s.lastChecked : Nat) }
  | none => { u := u, ok := false, lastChecked := 0, score1000 := 0 }

/-- Comparator of `src/unnamed/part_003` line 306: `(a,b) => b.score - a.score`
(descending by score); `le a b` holds when `a` is not strictly after `b`. -/
def scoreLe (a b : Scored) : Bool :=
  decide (b.score1000 ≤ a.score1000)

/-- `chooseBest` from `src/unnamed/part_003` lines 299-310. -/
def chooseBest (tbl : HealthTable) (candidates : List String) : Option String :=
  match candidates with
  | [] => none
  | c0 :: _ =>
    let scored := candidates.map (scoredOf tbl)
    let sorted := sortBy scoreLe scored
    match sorted.find? (fun s => s.ok) with
    | some h => some h.u
    | none =>
      match sorted with
      | s :: _ => some s.u
      | [] => some c0

/-- Scored entry built by `chooseBestCandidate` in `src/server.js`
lines 189-193: `const s = healthStatus.get(u) || { ok: null, latency: null,
lastChecked: 0 }; const score = (s.ok ? 1000 : 0) - (s.latency || 0);
return { u, ok: !!s.ok, latency: s.latency || 99999,
lastChecked: s.lastChecked || 0, score };`. -/
structure ScoredC where
  u : String
  ok : Bool
  latency : Nat
  lastChecked : Nat
  score : Int
  deriving Repr, DecidableEq

def scoredCOf (tbl : HealthTable) (u : String) : ScoredC :=
  match lookupHealth tbl u with
  | some s =>
      { u := u, ok := s.ok, latency := (s.latency).getD 99999,
        lastChecked := s.lastChecked,
        score := (if s.ok then (1000 : Int) else 0) - ((s.latency).getD 0 : Nat) }
  | none => { u := u, ok := false, latency := 99999, lastChecked := 0, score := 0 }

/-- Comparator of `src/server.js` line 196:
`(a,b) => b.score - a.score || b.lastChecked - a.lastChecked`
(descending by score, then descending by lastChecked);
`le a b` holds when `a` is not strictly after `b`. -/
def scoreCLe (a b : ScoredC) : Bool :=
  decide (b.score < a.score) ||
    (decide (a.score = b.score) && decide (b.lastChecked ≤ a.lastChecked))

/-- `chooseBestCandidate` from `src/server.js` lines 185-202. -/
def chooseBestCandidate (tbl : HealthTable) (candidates : List String) : Option String :=
  match candidates with
  | [] => none
  | _ :: _ =>
    let scored := candidates.map (scoredCOf tbl)
    let sorted := sortBy scoreCLe scored
    match sorted.find? (fun s => s.ok) with
    | some h => some h.u
    | none =>
      match sorted.head? with
      | some s => some s.u
      | none => none

/-- Outcome of one `fetch` of a candidate URL inside `probeUrl`: either the
request completed with an HTTP status, or it threw (connection error or
timeout — `node-fetch` signals a timeout by rejecting the promise, which
lands in the `catch`). -/
inductive FetchOutcome where
  | success (status : Nat)
  | failure
  deriving Repr, DecidableEq

/-- Result object of `probeUrl`. -/
structure ProbeResult where
  ok : Bool
  status : Nat
  deriving Repr, DecidableEq

/-- `probeUrl` from `src/unnamed/part_003` lines 93-101 (the `ok`/`status`
logic is identical in `src/server.js` lines 79-89, which additionally
reports a latency):
`const ok = res && res.status >= 200 && res.status < 400;`
`return { ok, status: res ? res.status : 0 };` with
`catch (e) { return { ok: false, status: 0 }; }`.
It is a total function: bad URLs and timeouts arrive as `.failure`. -/
def probeUrl : FetchOutcome → ProbeResult
  | .success s => { ok := decide (200 ≤ s ∧ s < 400), status := s }
  | .failure => { ok := false, status := 0 }

/-- A normalized channel as built by the resolver paths of
`src/unnamed/part_003` (`parseUserM3U`, `tryCricfyJsonApi`, fallback). -/
structure Channel where
  id : String
  name : String
  group : String
  logo : Option String
  candidates : List String
  deriving Repr, DecidableEq

/-- Split a character list at every delimiter character (the delimiters are
consumed; `n` delimiters yield `n + 1` pieces, as `String.prototype.split`
with a single-character regex class does). -/
def splitChars (p : Char → Bool) : List Char → List (List Char)
  | [] => [[]]
  | c :: rest =>
    let r := splitChars p rest
    if p c then [] :: r
    else
      match r with
      | [] => [[c]]
      | h :: t => (c :: h) :: t

/-- Whitespace trimming at both ends (`String.prototype.trim`). -/
def trimChars (l : List Char) : List Char :=
  ((l.dropWhile Char.isWhitespace).reverse.dropWhile Char.isWhitespace).reverse

/-- `splitCandidates` from `src/unnamed/part_003` lines 85-90 (identical in
`src/server.js` lines 72-77): split on `[,|;]`, trim, drop empties, and
fall back to the raw string when nothing survives:
`if (!urlString) return [];`
`const parts = urlString.split(/[,|;]/).map(s => s.trim()).filter(Boolean);`
`return parts.length ? parts : [urlString];`. -/
def splitCandidates (urlString : String) : List String :=
  if urlString = "" then []
  else
    let parts :=
      ((splitChars (fun c => c = ',' || c = '|' || c = ';') urlString.data).map
        (fun cs => String.mk (trimChars cs))).filter (fun s => s ≠ "")
    if parts.isEmpty then [urlString] else parts

/-- UTF-8 byte sequence of one character (the bytes `Buffer.from(url)`
produces per character). -/
def charUtf8 (c : Char) : List Nat :=
  let n := c.toNat
  if n < 128 then [n]
  else if n < 2048 then [192 + n / 64, 128 + n % 64]
  else if n < 65536 then [224 + n / 4096, 128 + (n / 64) % 64, 128 + n % 64]
  else [240 + n / 262144, 128 + (n / 4096) % 64, 128 + (n / 64) % 64, 128 + n % 64]

def utf8Bytes (s : String) : List Nat :=
  s.data.foldr (fun c acc => charUtf8 c ++ acc) []

def base64Digit (n : Nat) : Char :=
  "ABCDEFGHIJKLMNOPQRSTUVWXYZabcdefghijklmnopqrstuvwxyz0123456789+/".data.getD n (Char.ofNat 65)

/-- Standard base64 with padding, over a byte list
(the `Buffer.prototype.toString("base64")` encoding). -/
def base64Chars : List Nat → List Char
  | [] => []
  | [a] =>
      [base64Digit (a / 4), base64Digit ((a % 4) * 16), Char.ofNat 61, Char.ofNat 61]
  | [a, b] =>
      [base64Digit (a / 4), base64Digit ((a % 4) * 16 + b / 16),
       base64Digit ((b % 16) * 4), Char.ofNat 61]
  | a :: b :: c :: rest =>
      base64Digit (a / 4) :: base64Digit ((a % 4) * 16 + b / 16) ::
        base64Digit ((b % 16) * 4 + c / 64) :: base64Digit (c % 64) ::
        base64Chars rest

def dropPad (l : List Char) : List Char :=
  (l.reverse.dropWhile (fun c => c = Char.ofNat 61)).reverse

/-- `makeId` from `src/unnamed/part_003` lines 81-84:
`const encoded = Buffer.from(url).toString("base64").replace(/=+$/,"");`
followed by the template string (`replace(/=+$/,"")` strips the base64
padding, which is exactly the trailing run of `=`). -/
def makeId (pre : String) (idx : Nat) (url : String) : String :=
  pre ++ "_" ++ toString idx ++ "_" ++ String.mk (dropPad (base64Chars (utf8Bytes url)))

/-- One raw parsed playlist entry as handed over by the external
`iptv-playlist-parser` (`pl.items`): optional fields flattened from the
`it.x || it.tvg?.x || default` chains of the source. -/
structure RawItem where
  name : Option String
  url : Option String
  group : Option String
  logo : Option String
  deriving Repr, DecidableEq

def rawUrl (i : RawItem) : String := (i.url).getD ""

/-- The body of the `.map((it, idx) => ...)` callback of `parseUserM3U`,
carried out by recursion with an explicit running index. -/
def normalizeFiltered : Nat → List RawItem → List Channel
  | _, [] => []
  | idx, it :: rest =>
    { id := makeId "user" idx (rawUrl it),
      name := (it.name).getD ("User " ++ toString (idx + 1)),
      group := (it.group).getD "User Playlist",
      logo := it.logo,
      candidates := splitCandidates (rawUrl it) } :: normalizeFiltered (idx + 1) rest

/-- The normalization mapping of `parseUserM3U` in `src/unnamed/part_003`
lines 109-122 (structurally identical to the normalization in
`src/server.js` `fetchPlaylist` lines 104-120):
`pl.items.filter(i => i && i.url).map((it, idx) => ...)` — the index is the
position in the filtered list, an entry with a falsy `url` is dropped, and
`candidates` comes from `splitCandidates(it.url)`. -/
def normalizeItems (items : List RawItem) : List Channel :=
  normalizeFiltered 0 (items.filter (fun i => rawUrl i ≠ ""))

/-- One entry of the `STABLE_FALLBACK_CHANNELS` constant of
`src/unnamed/part_003` lines 49-63. -/
structure FallbackDef where
  fid : String
  fname : String
  furl : String
  fgroup : String
  deriving Repr, DecidableEq

def STABLE_FALLBACK_CHANNELS : List FallbackDef :=
  [{ fid := "fallback_1", fname := "Stable Sports 1",
     furl := "https://bitdash-a.akamaihd.net/content/sintel/hls/playlist.m3u8",
     fgroup := "Stable" },
   { fid := "fallback_2", fname := "Stable Sports 2",
     furl := "https://cph-p2p-msl.akamaized.net/hls/live/2000341/test/master.m3u8",
     fgroup := "Stable" }]

/-- The fallback mapping of `src/unnamed/part_003` lines 247-253:
`STABLE_FALLBACK_CHANNELS.map((ch, idx) => ({ id: ch.id || makeId(...),
name: ch.name, group: ch.group || "Stable", logo: ch.logo || null,
candidates: splitCandidates(ch.url) }))` (every entry carries an `id` and
no `logo`, so the `||` defaults resolve as written here). -/
def fallbackItems : List Channel :=
  STABLE_FALLBACK_CHANNELS.map (fun ch =>
    { id := ch.fid, name := ch.fname, group := ch.fgroup, logo := none,
      candidates := splitCandidates ch.furl })

/-- The strategy combination of `src/unnamed/part_003` `fetchPlaylist`
lines 222-254: start from the Cricfy scrape result; if `PLAYLIST_URL` is
set (the guard `(items.length === 0 || PLAYLIST_URL) && PLAYLIST_URL` is
equivalent to `PLAYLIST_URL` being truthy) and the user playlist parsed to
a non-empty list, concatenate it; if the total is still empty, use the
static fallback list. The scrape result and the parsed user playlist are
network outcomes and enter as explicit inputs (`scrapeCricfyAuto` and
`parseUserM3U` both swallow their own errors and return `[]`). -/
def resolveItems (scraped : List Channel) (playlistUrl : String)
    (userItems : List Channel) : List Channel :=
  let withUser :=
    if playlistUrl ≠ "" ∧ userItems ≠ [] then scraped ++ userItems else scraped
  if withUser = [] then fallbackItems else withUser

/-- The playlist cache state `playlistCache = { ts, items }` of
`src/unnamed/part_003` line 76. -/
structure CacheState where
  ts : Nat
  items : List Channel
  deriving Repr, DecidableEq

/-- `fetchPlaylist` from `src/unnamed/part_003` lines 217-259 (the cache
guard of `src/server.js` lines 94-97 is the same except that it omits the
`playlistCache.ts` truthiness check). `t` is `now()`. The returned `Bool`
records whether the resolver ran (upstream I/O happened), i.e. whether
control passed the early-return cache hit:
`if (!force && playlistCache.ts && (now() - playlistCache.ts) <
PLAYLIST_TTL_MS && playlistCache.items.length) return playlistCache.items;`.
The age test is carried out in `Int` because JS number subtraction can go
negative. -/
def fetchPlaylist (force : Bool) (st : CacheState) (t ttl : Nat)
    (scraped : List Channel) (playlistUrl : String)
    (userItems : List Channel) : List Channel × CacheState × Bool :=
  if force = false ∧ st.ts ≠ 0 ∧ (t : Int) - (st.ts : Int) < (ttl : Int) ∧ st.items ≠ [] then
    (st.items, st, false)
  else
    let items := resolveItems scraped playlistUrl userItems
    (items, { ts := t, items := items }, true)

/-- First-occurrence deduplication with an accumulator of already-seen
keys. -/
def dedupAux (seen : List String) : List String → List String
  | [] => []
  | x :: xs => if x ∈ seen then dedupAux seen xs else x :: dedupAux (seen ++ [x]) xs

/-- First-occurrence deduplication: the observable content and order of
`new Set(candidates)` / `Array.from(allCandidates)` in both
`runHealthChecks` variants (a JS `Set` iterates in insertion order and
ignores re-insertions). -/
def dedup (l : List String) : List String :=
  dedupAux [] l

/-- All candidate URLs of a listing, in traversal order:
`channels.forEach(c => (c.candidates || []).forEach(u => allCandidates.add(u)))`. -/
def allCandidates (channels : List Channel) : List String :=
  channels.flatMap (fun c => c.candidates)

/-- The health record written for a probed URL by `src/unnamed/part_003`
line 276: `healthStatus.set(u, { ok: !!res.ok, status: res.status || 0,
lastChecked: now() })` (no latency is stored in this variant). -/
def probeRecord (r : FetchOutcome) (t : Nat) : HealthRecord :=
  { ok := (probeUrl r).ok, status := (probeUrl r).status, lastChecked := t,
    latency := none }

/-- `runHealthChecks` from `src/unnamed/part_003` lines 262-285: read the
listing through the cache, deduplicate the candidate URLs, probe each and
write one record per URL. The probes run in `Promise.all` batches of 6,
but each write targets a distinct key, so the final table contents equal
the sequential fold; the network outcome of each probe enters through the
`oracle` (including failures — `probeUrl` and the surrounding
`try`/`catch` turn every failure into an `ok: false` record instead of
aborting the cycle). `t` stands for the `now()` stamps of the cycle. -/
def runHealthChecks (channels : List Channel) (oracle : String → FetchOutcome)
    (t : Nat) (tbl : HealthTable) : HealthTable :=
  (dedup (allCandidates channels)).foldl
    (fun acc u => setHealth acc u (probeRecord (oracle u) t)) tbl

/-- The cache-hit guard of `fetchPlaylist` (part_003 line 218) for a
`force = false` call, as a Boolean on the shared cache state. -/
def cacheFresh (st : CacheState) (t ttl : Nat) : Bool :=
  decide (st.ts ≠ 0) && decide ((t : Int) - (st.ts : Int) < (ttl : Int)) &&
    decide (st.items ≠ [])

/-- Progress of one concurrent `fetchPlaylist(false)` caller:
`start` — about to evaluate the cache guard; `fetching` — the guard saw a
stale cache and the caller is awaiting its own resolver run (the code has
no in-flight-refresh sharing, each caller that reaches this phase performs
its own upstream fetch); `done` — returned. -/
inductive CallerPhase where
  | start
  | fetching
  | done
  deriving Repr, DecidableEq

/-- Shared state of the concurrent-callers model: the playlist cache, each
phase of each caller, and the number of resolver invocations so far. -/
structure SysState where
  cache : CacheState
  phase : Nat → CallerPhase
  invocations : Nat

/-- One scheduler step of caller `i` executing `fetchPlaylist(false)` from
`src/unnamed/part_003` lines 217-259: from `start`, evaluate the cache
guard against the current shared cache and either return (fresh) or begin
a resolver run (stale — `invocations` counts these); from `fetching`,
complete the resolver run, write the cache (`playlistCache = { ts: now(),
items }`) and return. The two phases are separated because the resolver
awaits network I/O, during which other callers run. -/
def callerStep (t ttl tDone : Nat) (newItems : List Channel)
    (sys : SysState) (i : Nat) : SysState :=
  match sys.phase i with
  | .start =>
    if cacheFresh sys.cache t ttl then
      { sys with phase := fun j => if j = i then .done else sys.phase j }
    else
      { sys with phase := fun j => if j = i then .fetching else sys.phase j,
                 invocations := sys.invocations + 1 }
  | .fetching =>
    { cache := { ts := tDone, items := newItems },
      phase := fun j => if j = i then .done else sys.phase j,
      invocations := sys.invocations }
  | .done => sys

/-- Run an interleaving: the schedule lists which caller takes the next
step. -/
def runSchedule (t ttl tDone : Nat) (newItems : List Channel)
    (init : SysState) (sched : List Nat) : SysState :=
  sched.foldl (callerStep t ttl tDone newItems) init

/-- Fresh system state: all callers about to call `fetchPlaylist(false)`
on cache `st`. -/
def initSys (st : CacheState) : SysState :=
  { cache := st, phase := fun _ => .start, invocations := 0 }

/-- Replace the first occurrence of `pat` in `s` — the behaviour of the JS
`String.prototype.replace` with a string pattern, as used in
`path.replace("/proxy/", "")`. -/
def replaceFirstChars (pat rep : List Char) : List Char → List Char
  | [] => []
  | c :: rest =>
    if pat.isPrefixOf (c :: rest) then rep ++ (c :: rest).drop pat.length
    else c :: replaceFirstChars pat rep rest

def replaceFirst (s pat rep : String) : String :=
  String.mk (replaceFirstChars pat.data rep.data s.data)

def hexDigitVal (c : Char) : Option Nat :=
  if decide (Char.ofNat 48 ≤ c) && decide (c ≤ Char.ofNat 57) then
    some (c.toNat - 48)
  else if decide (Char.ofNat 65 ≤ c) && decide (c ≤ Char.ofNat 70) then
    some (c.toNat - 65 + 10)
  else if decide (Char.ofNat 97 ≤ c) && decide (c ≤ Char.ofNat 102) then
    some (c.toNat - 97 + 10)
  else none

/-- Percent-decoding to a byte sequence: `%XY` becomes the byte `0xXY`
(`none` when the two hex digits are missing or invalid — the JS
`decodeURIComponent` throws `URIError` there), any other character
contributes its UTF-8 bytes. -/
def percentBytes : List Char → Option (List Nat)
  | [] => some []
  | c :: c1 :: c2 :: rest =>
    if c = Char.ofNat 37 then
      match hexDigitVal c1, hexDigitVal c2, percentBytes rest with
      | some h1, some h2, some bs => some ((h1 * 16 + h2) :: bs)
      | _, _, _ => none
    else
      (percentBytes (c1 :: c2 :: rest)).map (fun bs => charUtf8 c ++ bs)
  | c :: rest =>
    if c = Char.ofNat 37 then none
    else (percentBytes rest).map (fun bs => charUtf8 c ++ bs)

/-- Strict UTF-8 decoding of a byte sequence (`none` on malformed input,
where `decodeURIComponent` throws `URIError`). The fuel is the list
length; every step consumes at least one byte. -/
def utf8DecodeFuel : Nat → List Nat → Option (List Char)
  | _, [] => some []
  | 0, _ :: _ => none
  | fuel + 1, b :: rest =>
    if b < 128 then
      (utf8DecodeFuel fuel rest).map (fun cs => Char.ofNat b :: cs)
    else if 194 ≤ b ∧ b < 224 then
      match rest with
      | b2 :: rest2 =>
        if 128 ≤ b2 ∧ b2 < 192 then
          (utf8DecodeFuel fuel rest2).map
            (fun cs => Char.ofNat ((b - 192) * 64 + (b2 - 128)) :: cs)
        else none
      | [] => none
    else if 224 ≤ b ∧ b < 240 then
      match rest with
      | b2 :: b3 :: rest2 =>
        if (128 ≤ b2 ∧ b2 < 192) ∧ (128 ≤ b3 ∧ b3 < 192) then
          let n := (b - 224) * 4096 + (b2 - 128) * 64 + (b3 - 128)
          if 2048 ≤ n ∧ (n < 55296 ∨ 57344 ≤ n) then
            (utf8DecodeFuel fuel rest2).map (fun cs => Char.ofNat n :: cs)
          else none
        else none
      | _ => none
    else if 240 ≤ b ∧ b < 245 then
      match rest with
      | b2 :: b3 :: b4 :: rest2 =>
        if (128 ≤ b2 ∧ b2 < 192) ∧ (128 ≤ b3 ∧ b3 < 192) ∧ (128 ≤ b4 ∧ b4 < 192) then
          let n := (b - 240) * 262144 + (b2 - 128) * 4096 + (b3 - 128) * 64 + (b4 - 128)
          if 65536 ≤ n ∧ n < 1114112 then
            (utf8DecodeFuel fuel rest2).map (fun cs => Char.ofNat n :: cs)
          else none
        else none
      | _ => none
    else none

/-- Model of the JS builtin `decodeURIComponent` (ECMA-262 `Decode`):
percent-escapes and literal characters are turned into a byte sequence
which must UTF-8-decode; `none` models the thrown `URIError`. -/
def decodeURIComponent (s : String) : Option String :=
  match percentBytes s.data with
  | some bs =>
    match utf8DecodeFuel bs.length bs with
    | some cs => some (String.mk cs)
    | none => none
  | none => none

/-- What the `/proxy` middleware of `src/server.js` lines 38-56 does with
an inbound request: there is no branch producing a client-error response —
the configuration only has `pathRewrite`, header injection, and an
`onError` handler answering `502 Bad gateway` (a server error) on upstream
failure. `forward t` means the request is proxied upstream with rewritten
path `t`; `thrown` means `pathRewrite` raised (`decodeURIComponent` threw
`URIError`), which surfaces as an unhandled middleware exception, not a
4xx; `clientError` — a 4xx response — exists in the outcome type only so
the behaviour demanded by the specification is expressible; no input produces
it. -/
inductive ProxyOutcome where
  | forward (target : String)
  | thrown
  | clientError
  deriving Repr, DecidableEq

/-- `pathRewrite: (path) => decodeURIComponent(path.replace("/proxy/", ""))`
from `src/server.js` line 46. -/
def pathRewrite (path : String) : Option String :=
  decodeURIComponent (replaceFirst path "/proxy/" "")

def proxyHandle (path : String) : ProxyOutcome :=
  match pathRewrite path with
  | some t => .forward t
  | none => .thrown

/-- Whether the health table currently marks `u` reachable (the truthiness
test `s.ok` performed on `healthStatus.get(u)`, with a missing record
counting as not reachable). -/
def okOf (tbl : HealthTable) (u : String) : Bool :=
  match lookupHealth tbl u with
  | some r => r.ok
  | none => false

end Stremcri

namespace Stremcri

/-! ## Helper lemmas about the stable sort -/

theorem insertBy_perm {α : Type} (le : α → α → Bool) (x : α) (l : List α) :
    List.Perm (insertBy le x l) (x :: l) := by
  induction l with
  | nil => simp [insertBy]
  | cons y ys ih =>
    by_cases h : le x y = true
    · simp [insertBy, h]
    · simp only [insertBy, if_neg h]
      exact (ih.cons y).trans (List.Perm.swap x y ys)

theorem sortBy_perm {α : Type} (le : α → α → Bool) (l : List α) :
    List.Perm (sortBy le l) l := by
  induction l with
  | nil => simp [sortBy]
  | cons x xs ih => exact (insertBy_perm le x (sortBy le xs)).trans (ih.cons x)

theorem mem_sortBy {α : Type} (le : α → α → Bool) (l : List α) (a : α) :
    a ∈ sortBy le l ↔ a ∈ l :=
  (sortBy_perm le l).mem_iff

theorem length_sortBy {α : Type} (le : α → α → Bool) (l : List α) :
    (sortBy le l).length = l.length :=
  (sortBy_perm le l).length_eq

theorem sortBy_eq_of_all {α : Type} (le : α → α → Bool) :
    ∀ l : List α, (∀ x ∈ l, ∀ y ∈ l, le x y = true) → sortBy le l = l := by
  intro l
  induction l with
  | nil => intro _; rfl
  | cons x xs ih =>
    intro h
    have hxs : sortBy le xs = xs :=
      ih (fun a ha b hb =>
        h a (List.mem_cons_of_mem _ ha) b (List.mem_cons_of_mem _ hb))
    simp only [sortBy, hxs]
    cases xs with
    | nil => rfl
    | cons y ys =>
      simp [insertBy, h x (List.mem_cons_self _ _) y (by simp)]

theorem find_sortBy_of_exists {α : Type} (le : α → α → Bool) (p : α → Bool)
    (l : List α) (h : ∃ x ∈ l, p x = true) :
    ∃ x, (sortBy le l).find? p = some x ∧ x ∈ l ∧ p x = true := by
  obtain ⟨x, hx, hp⟩ := h
  have hsome : ((sortBy le l).find? p).isSome := by
    rw [List.find?_isSome]
    exact ⟨x, (mem_sortBy le l x).mpr hx, hp⟩
  obtain ⟨y, hy⟩ := Option.isSome_iff_exists.mp hsome
  exact ⟨y, hy, (mem_sortBy le l y).mp (List.mem_of_find?_eq_some hy),
    List.find?_some hy⟩

/-! ## Helper lemmas about the selectors -/

theorem scoredOf_u (tbl : HealthTable) (u : String) : (scoredOf tbl u).u = u := by
  unfold scoredOf
  cases lookupHealth tbl u <;> rfl

theorem scoredOf_ok (tbl : HealthTable) (u : String) :
    (scoredOf tbl u).ok = okOf tbl u := by
  unfold scoredOf okOf
  cases lookupHealth tbl u <;> rfl

theorem scoredCOf_u (tbl : HealthTable) (u : String) : (scoredCOf tbl u).u = u := by
  unfold scoredCOf
  cases lookupHealth tbl u <;> rfl

theorem scoredCOf_ok (tbl : HealthTable) (u : String) :
    (scoredCOf tbl u).ok = okOf tbl u := by
  unfold scoredCOf okOf
  cases lookupHealth tbl u <;> rfl

theorem scoredOf_of_none (tbl : HealthTable) (u : String)
    (h : lookupHealth tbl u = none) :
    scoredOf tbl u = { u := u, ok := false, lastChecked := 0, score1000 := 0 } := by
  unfold scoredOf
  rw [h]

theorem scoredCOf_of_none (tbl : HealthTable) (u : String)
    (h : lookupHealth tbl u = none) :
    scoredCOf tbl u =
      { u := u, ok := false, latency := 99999, lastChecked := 0, score := 0 } := by
  unfold scoredCOf
  rw [h]

/-! ## Helper lemmas about deduplication and the health-table fold -/

theorem mem_dedupAux (a : String) :
    ∀ (l seen : List String), a ∈ dedupAux seen l ↔ a ∈ l ∧ a ∉ seen := by
  intro l
  induction l with
  | nil => simp [dedupAux]
  | cons x xs ih =>
    intro seen
    by_cases hx : x ∈ seen
    · simp only [dedupAux, if_pos hx, ih, List.mem_cons]
      constructor
      · exact fun ⟨h1, h2⟩ => ⟨Or.inr h1, h2⟩
      · rintro ⟨h1 | h1, h2⟩
        · exact absurd (h1 ▸ hx) h2
        · exact ⟨h1, h2⟩
    · simp only [dedupAux, if_neg hx, List.mem_cons, ih, List.mem_append,
        List.mem_singleton]
      by_cases hax : a = x
      · subst hax
        simp [hx]
      · simp [hax]

theorem mem_dedup (a : String) (l : List String) : a ∈ dedup l ↔ a ∈ l := by
  simp [dedup, mem_dedupAux]

theorem nodup_dedupAux : ∀ (l seen : List String), (dedupAux seen l).Nodup := by
  intro l
  induction l with
  | nil => intro _; simp [dedupAux]
  | cons x xs ih =>
    intro seen
    by_cases hx : x ∈ seen
    · simpa [dedupAux, hx] using ih seen
    · simp only [dedupAux, if_neg hx, List.nodup_cons]
      refine ⟨fun hmem => ?_, ih _⟩
      rw [mem_dedupAux] at hmem
      exact hmem.2 (by simp)

theorem nodup_dedup (l : List String) : (dedup l).Nodup :=
  nodup_dedupAux l []

theorem lookup_setHealth_self (tbl : HealthTable) (u : String) (r : HealthRecord) :
    lookupHealth (setHealth tbl u r) u = some r := by
  simp [setHealth, lookupHealth]

theorem lookup_foldl_of_not_mem (f : String → HealthRecord) (u : String) :
    ∀ (l : List String) (tbl : HealthTable), u ∉ l →
      lookupHealth (l.foldl (fun acc x => setHealth acc x (f x)) tbl) u =
        lookupHealth tbl u := by
  intro l
  induction l with
  | nil => intro tbl _; rfl
  | cons x xs ih =>
    intro tbl h
    simp only [List.foldl_cons]
    rw [ih _ (fun hm => h (List.mem_cons_of_mem _ hm))]
    have hne : x ≠ u := fun he => h (he ▸ List.mem_cons_self _ _)
    simp [setHealth, lookupHealth, hne]

theorem lookup_foldl_of_mem (f : String → HealthRecord) (u : String) :
    ∀ (l : List String) (tbl : HealthTable), l.Nodup → u ∈ l →
      lookupHealth (l.foldl (fun acc x => setHealth acc x (f x)) tbl) u =
        some (f u) := by
  intro l
  induction l with
  | nil => intro tbl _ h; cases h
  | cons x xs ih =>
    intro tbl hnd hu
    simp only [List.foldl_cons]
    rcases List.mem_cons.mp hu with he | hm
    · subst he
      rw [lookup_foldl_of_not_mem f u xs _ (List.nodup_cons.mp hnd).1]
      exact lookup_setHealth_self tbl u (f u)
    · exact ih _ (List.nodup_cons.mp hnd).2 hm

/-! ## Helper lemma about concurrent cache refreshes -/

theorem runSchedule_all_start (t ttl tDone : Nat) (newItems : List Channel) :
    ∀ (sched : List Nat) (sys : SysState), sched.Nodup →
      (∀ i ∈ sched, sys.phase i = .start) →
      cacheFresh sys.cache t ttl = false →
      (runSchedule t ttl tDone newItems sys sched).invocations =
        sys.invocations + sched.length := by
  intro sched
  induction sched with
  | nil => intro sys _ _ _; rfl
  | cons i rest ih =>
    intro sys hnd hph hfresh
    have hstep : callerStep t ttl tDone newItems sys i =
        { sys with phase := fun j => if j = i then .fetching else sys.phase j,
                   invocations := sys.invocations + 1 } := by
      simp [callerStep, hph i (List.mem_cons_self _ _), hfresh]
    have hrest := ih
      { sys with phase := fun j => if j = i then .fetching else sys.phase j,
                 invocations := sys.invocations + 1 }
      (List.nodup_cons.mp hnd).2
      (fun j hj => by
        have hji : j ≠ i := fun he => (List.nodup_cons.mp hnd).1 (he ▸ hj)
        simpa [hji] using hph j (List.mem_cons_of_mem _ hj))
      hfresh
    calc (runSchedule t ttl tDone newItems sys (i :: rest)).invocations
        = (runSchedule t ttl tDone newItems
            { sys with phase := fun j => if j = i then .fetching else sys.phase j,
                       invocations := sys.invocations + 1 } rest).invocations := by
          simp only [runSchedule, List.foldl_cons, hstep]
      _ = sys.invocations + 1 + rest.length := hrest
      _ = sys.invocations + (i :: rest).length := by
          simp [List.length_cons]
          omega

/-! ## Helper lemmas about normalization -/

theorem splitCandidates_ne_nil (u : String) (h : u ≠ "") :
    splitCandidates u ≠ [] := by
  unfold splitCandidates
  rw [if_neg h]
  set parts := ((splitChars (fun c => c = ',' || c = '|' || c = ';') u.data).map
      (fun cs => String.mk (trimChars cs))).filter (fun s => s ≠ "") with hparts
  by_cases hp : parts.isEmpty
  · rw [if_pos hp]
    simp
  · rw [if_neg hp]
    simpa [List.isEmpty_iff] using hp

theorem mem_normalizeFiltered (ch : Channel) :
    ∀ (l : List RawItem) (idx : Nat), ch ∈ normalizeFiltered idx l →
      ∃ it ∈ l, ch.candidates = splitCandidates (rawUrl it) := by
  intro l
  induction l with
  | nil => intro idx h; cases h
  | cons it rest ih =>
    intro idx h
    rcases List.mem_cons.mp h with he | hm
    · exact ⟨it, List.mem_cons_self _ _, by rw [he]⟩
    · obtain ⟨it2, hit2, hc⟩ := ih (idx + 1) hm
      exact ⟨it2, List.mem_cons_of_mem _ hit2, hc⟩

theorem length_normalizeFiltered :
    ∀ (l : List RawItem) (idx : Nat), (normalizeFiltered idx l).length = l.length := by
  intro l
  induction l with
  | nil => intro _; rfl
  | cons it rest ih =>
    intro idx
    simp [normalizeFiltered, ih]

theorem fallbackItems_candidates_ne_nil :
    ∀ ch ∈ fallbackItems, ch.candidates ≠ [] := by decide

theorem resolveItems_candidates_ne_nil (scraped userItems : List Channel)
    (pu : String) (h1 : ∀ ch ∈ scraped, ch.candidates ≠ [])
    (h2 : ∀ ch ∈ userItems, ch.candidates ≠ []) :
    ∀ ch ∈ resolveItems scraped pu userItems, ch.candidates ≠ [] := by
  intro ch hch
  unfold resolveItems at hch
  by_cases hw : (if pu ≠ "" ∧ userItems ≠ [] then scraped ++ userItems else scraped) = []
  · rw [if_pos hw] at hch
    exact fallbackItems_candidates_ne_nil ch hch
  · rw [if_neg hw] at hch
    by_cases hc : pu ≠ "" ∧ userItems ≠ []
    · rw [if_pos hc] at hch
      rcases List.mem_append.mp hch with hm | hm
      · exact h1 ch hm
      · exact h2 ch hm
    · rw [if_neg hc] at hch
      exact h1 ch hch

/-! ## Claim theorems -/

/-- C3 (confirmed): `probeUrl` classifies a URL reachable (`ok = true`) iff
the request completed with a response status in 200–399; any exception or
timeout (the `.failure` outcome of the underlying fetch) yields
`ok = false` with status 0. `probeUrl` is a total function — the
`try`/`catch` in the source converts every failure into a returned record,
so it never raises to its caller. -/
theorem probe_classification :
    ∀ r : FetchOutcome,
      ((probeUrl r).ok = true ↔
        ∃ s, r = FetchOutcome.success s ∧ 200 ≤ s ∧ s < 400)
      ∧ probeUrl FetchOutcome.failure = { ok := false, status := 0 } := by
  intro r
  refine ⟨?_, rfl⟩
  cases r with
  | success s =>
    constructor
    · intro hok
      refine ⟨s, rfl, ?_⟩
      simpa [probeUrl] using hok
    · rintro ⟨t, ht, h1, h2⟩
      cases ht
      simp only [probeUrl, decide_eq_true_eq]
      exact ⟨h1, h2⟩
  | failure =>
    constructor
    · intro hok
      simp [probeUrl] at hok
    · rintro ⟨t, ht, _, _⟩
      cases ht

/-- C7 (confirmed): when every upstream strategy yields nothing (the
Cricfy scrape returns `[]` and no user playlist produces items), a forced
refresh `fetchPlaylist(true)` still returns a non-empty snapshot that is
exactly the static fallback list, each channel carrying exactly one
candidate equal to its configured URL. -/
theorem fallback_snapshot :
    ∀ (st : CacheState) (t ttl : Nat) (pu : String),
      fetchPlaylist true st t ttl [] pu [] =
        (fallbackItems, { ts := t, items := fallbackItems }, true)
      ∧ fallbackItems ≠ []
      ∧ fallbackItems.map (fun ch => ch.candidates) =
          STABLE_FALLBACK_CHANNELS.map (fun d => [d.furl]) := by
  intro st t ttl pu
  refine ⟨?_, by decide, by decide⟩
  simp [fetchPlaylist, resolveItems]

/-- C6 (confirmed): each `runHealthChecks` cycle probes every distinct
candidate URL of the current listing exactly once — the probed list is
duplicate-free and contains exactly the URLs appearing in the candidates
of some channel — and performs exactly one health-table write per distinct
URL, unconditionally overwriting any prior record, whatever the outcome of
each probe is (the oracle is arbitrary, so individual failures never
suppress the writes for the other URLs); URLs outside the listing keep
their old records. -/
theorem health_cycle_writes :
    ∀ (channels : List Channel) (oracle : String → FetchOutcome) (t : Nat)
      (tbl : HealthTable),
      (dedup (allCandidates channels)).Nodup
      ∧ (∀ u, u ∈ dedup (allCandidates channels) ↔ u ∈ allCandidates channels)
      ∧ (∀ u ∈ allCandidates channels,
          lookupHealth (runHealthChecks channels oracle t tbl) u =
            some (probeRecord (oracle u) t))
      ∧ (∀ u, u ∉ allCandidates channels →
          lookupHealth (runHealthChecks channels oracle t tbl) u =
            lookupHealth tbl u) := by
  intro channels oracle t tbl
  refine ⟨nodup_dedup _, fun u => mem_dedup u _, fun u hu => ?_, fun u hu => ?_⟩
  · exact lookup_foldl_of_mem _ u _ tbl (nodup_dedup _) ((mem_dedup u _).mpr hu)
  · exact lookup_foldl_of_not_mem _ u _ tbl (fun hm => hu ((mem_dedup u _).mp hm))

/-- Witness for C6: a URL shared by two channels, currently recorded
reachable, is re-probed (here: the probe fails) and its record is
unconditionally overwritten with the failure result. -/
theorem health_cycle_writes_wit :
    lookupHealth
      (runHealthChecks
        [⟨"c1", "n1", "g", none, ["u", "v"]⟩, ⟨"c2", "n2", "g", none, ["u"]⟩]
        (fun _ => .failure) 7 [("u", ⟨true, 200, 1, none⟩)]) "u" =
      some { ok := false, status := 0, lastChecked := 7, latency := none } := by
  have h :=
    (health_cycle_writes
      [⟨"c1", "n1", "g", none, ["u", "v"]⟩, ⟨"c2", "n2", "g", none, ["u"]⟩]
      (fun _ => .failure) 7 [("u", ⟨true, 200, 1, none⟩)]).2.2.1 "u" (by decide)
  simpa [probeRecord, probeUrl] using h

/-- C10 (confirmed): for every non-empty candidate list and any health
table, both selectors return an element of the input list (they never
fabricate a URL and never return `null` on non-empty input); `none` is
returned exactly for the empty list. -/
theorem selector_membership :
    ∀ (tbl : HealthTable) (cs : List String),
      (cs ≠ [] →
        (∃ u ∈ cs, chooseBest tbl cs = some u) ∧
        (∃ u ∈ cs, chooseBestCandidate tbl cs = some u))
      ∧ chooseBest tbl [] = none ∧ chooseBestCandidate tbl [] = none := by
  intro tbl cs
  refine ⟨?_, rfl, rfl⟩
  intro hne
  cases cs with
  | nil => exact absurd rfl hne
  | cons c0 rest =>
    constructor
    · rcases hf : (sortBy scoreLe ((c0 :: rest).map (scoredOf tbl))).find?
          (fun s => s.ok) with _ | h
      · rcases hs : sortBy scoreLe ((c0 :: rest).map (scoredOf tbl)) with _ | ⟨s, ss⟩
        · refine ⟨c0, List.mem_cons_self _ _, ?_⟩
          simp only [chooseBest]
          rw [hf, hs]
        · have hmem : s ∈ (c0 :: rest).map (scoredOf tbl) :=
            (mem_sortBy _ _ _).mp (by rw [hs]; exact List.mem_cons_self _ _)
          obtain ⟨u, hu, hequ⟩ := List.mem_map.mp hmem
          refine ⟨u, hu, ?_⟩
          have hres : chooseBest tbl (c0 :: rest) = some s.u := by
            simp only [chooseBest]
            rw [hf, hs]
          rw [hres, ← hequ, scoredOf_u]
      · have hmem : h ∈ (c0 :: rest).map (scoredOf tbl) :=
          (mem_sortBy _ _ _).mp (List.mem_of_find?_eq_some hf)
        obtain ⟨u, hu, hequ⟩ := List.mem_map.mp hmem
        refine ⟨u, hu, ?_⟩
        have hres : chooseBest tbl (c0 :: rest) = some h.u := by
          simp only [chooseBest]
          rw [hf]
        rw [hres, ← hequ, scoredOf_u]
    · rcases hf : (sortBy scoreCLe ((c0 :: rest).map (scoredCOf tbl))).find?
          (fun s => s.ok) with _ | h
      · rcases hs : sortBy scoreCLe ((c0 :: rest).map (scoredCOf tbl)) with _ | ⟨s, ss⟩
        · have hlen := length_sortBy scoreCLe ((c0 :: rest).map (scoredCOf tbl))
          rw [hs] at hlen
          simp at hlen
        · have hmem : s ∈ (c0 :: rest).map (scoredCOf tbl) :=
            (mem_sortBy _ _ _).mp (by rw [hs]; exact List.mem_cons_self _ _)
          obtain ⟨u, hu, hequ⟩ := List.mem_map.mp hmem
          refine ⟨u, hu, ?_⟩
          have hres : chooseBestCandidate tbl (c0 :: rest) = some s.u := by
            simp only [chooseBestCandidate]
            rw [hf, hs]
            rfl
          rw [hres, ← hequ, scoredCOf_u]
      · have hmem : h ∈ (c0 :: rest).map (scoredCOf tbl) :=
          (mem_sortBy _ _ _).mp (List.mem_of_find?_eq_some hf)
        obtain ⟨u, hu, hequ⟩ := List.mem_map.mp hmem
        refine ⟨u, hu, ?_⟩
        have hres : chooseBestCandidate tbl (c0 :: rest) = some h.u := by
          simp only [chooseBestCandidate]
          rw [hf]
        rw [hres, ← hequ, scoredCOf_u]

/-- Witness for C10 at a concrete non-empty list and empty health table. -/
theorem selector_membership_wit :
    ∃ u ∈ ["x", "y"], chooseBest [] ["x", "y"] = some u :=
  ((selector_membership [] ["x", "y"]).1 (by decide)).1

/-- Counterexample to C1: with candidates `["a", "b"]` where `a` has an
unreachable health record (`ok: false`, `lastChecked: 5000`) and `b` has
no record, neither selector returns the first candidate `a`: in
`chooseBest`, `a` scores `-5000/1000` while the unknown `b` scores `0`, so
`b` sorts first and is returned; in `chooseBestCandidate`, `a` scores
`-latency` while `b` scores `0`, again returning `b`. -/
theorem selector_unreachable_not_first_cex :
    chooseBest [("a", ⟨false, 404, 5000, none⟩)] ["a", "b"] = some "b"
    ∧ chooseBestCandidate [("a", ⟨false, 404, 1000, some 100⟩)] ["a", "b"] = some "b"
    ∧ ("b" : String) ≠ "a" := by decide

/-- C1 as amended: when no candidate has ANY health record, both selectors
deterministically return the first candidate in source order (each is a
pure function of the candidate list and table, so repeated calls agree);
when some candidate carries an unreachable record, the selector instead
returns the top-scoring unreachable candidate, which need not be the first
(see the counterexample). -/
theorem selector_all_unknown_first :
    ∀ (tbl : HealthTable) (c0 : String) (rest : List String),
      (∀ u ∈ c0 :: rest, lookupHealth tbl u = none) →
      chooseBest tbl (c0 :: rest) = some c0 ∧
      chooseBestCandidate tbl (c0 :: rest) = some c0 := by
  intro tbl c0 rest h
  constructor
  · have hsc : ∀ x ∈ (c0 :: rest).map (scoredOf tbl),
        x.score1000 = 0 ∧ x.ok = false := by
      intro x hx
      obtain ⟨u, hu, hux⟩ := List.mem_map.mp hx
      rw [← hux, scoredOf_of_none tbl u (h u hu)]
      exact ⟨rfl, rfl⟩
    have hsort : sortBy scoreLe ((c0 :: rest).map (scoredOf tbl)) =
        (c0 :: rest).map (scoredOf tbl) :=
      sortBy_eq_of_all scoreLe _ (fun x hx y hy => by
        simp [scoreLe, (hsc x hx).1, (hsc y hy).1])
    have hfind : (sortBy scoreLe ((c0 :: rest).map (scoredOf tbl))).find?
        (fun s => s.ok) = none := by
      rw [hsort]
      exact List.find?_eq_none.mpr (fun x hx => by simp [(hsc x hx).2])
    simp only [chooseBest]
    rw [hfind, hsort, List.map_cons]
    rw [scoredOf_of_none tbl c0 (h c0 (List.mem_cons_self _ _))]
  · have hsc : ∀ x ∈ (c0 :: rest).map (scoredCOf tbl),
        x.score = 0 ∧ x.lastChecked = 0 ∧ x.ok = false := by
      intro x hx
      obtain ⟨u, hu, hux⟩ := List.mem_map.mp hx
      rw [← hux, scoredCOf_of_none tbl u (h u hu)]
      exact ⟨rfl, rfl, rfl⟩
    have hsort : sortBy scoreCLe ((c0 :: rest).map (scoredCOf tbl)) =
        (c0 :: rest).map (scoredCOf tbl) :=
      sortBy_eq_of_all scoreCLe _ (fun x hx y hy => by
        simp [scoreCLe, (hsc x hx).1, (hsc y hy).1, (hsc x hx).2.1, (hsc y hy).2.1])
    have hfind : (sortBy scoreCLe ((c0 :: rest).map (scoredCOf tbl))).find?
        (fun s => s.ok) = none := by
      rw [hsort]
      exact List.find?_eq_none.mpr (fun x hx => by simp [(hsc x hx).2.2])
    simp only [chooseBestCandidate]
    rw [hfind, hsort, List.map_cons]
    rw [scoredCOf_of_none tbl c0 (h c0 (List.mem_cons_self _ _))]
    rfl

/-- Witness for (amended) C1: two candidates, empty health table — the
first one is returned by both selectors. -/
theorem selector_all_unknown_first_wit :
    chooseBest [] ["x", "y"] = some "x" ∧
    chooseBestCandidate [] ["x", "y"] = some "x" :=
  selector_all_unknown_first [] "x" ["y"] (by decide)

/-- Counterexample to C2: with candidates `["a", "b"]` both marked
reachable and `b` checked MORE recently (`lastChecked` 2000 vs 1000), the
tie-break of the claim (b) demands `b`, but `chooseBest` returns `a` — its
score `1000 - lastChecked/1000` penalizes recency — and
`chooseBestCandidate` (with distinct recorded latencies 5 vs 10) also
returns `a`, preferring lower latency regardless of recency. -/
theorem selector_recency_reversed_cex :
    chooseBest
      [("a", ⟨true, 200, 1000, none⟩), ("b", ⟨true, 200, 2000, none⟩)]
      ["a", "b"] = some "a"
    ∧ chooseBestCandidate
      [("a", ⟨true, 200, 1000, some 5⟩), ("b", ⟨true, 200, 2000, some 10⟩)]
      ["a", "b"] = some "a"
    ∧ ("a" : String) ≠ "b" := by decide

/-- C2 as amended: (a) holds — any candidate marked reachable is preferred
over every unreachable/unknown one: as soon as one candidate has a record
with `ok: true`, both selectors return a reachable candidate of the list;
(b) reversed — among two reachable candidates `chooseBest` returns the one
checked LESS (or equally) recently, because the score decreases with
`lastChecked`; the concrete `[A, B, C]`-with-only-B-reachable scenario
still returns `B` in both selectors (via their find-first-healthy step). -/
theorem selector_reachable_preferred :
    (∀ (tbl : HealthTable) (cs : List String),
      (∃ u ∈ cs, okOf tbl u = true) →
      ∃ u ∈ cs, chooseBest tbl cs = some u ∧ okOf tbl u = true)
    ∧ (∀ (tbl : HealthTable) (cs : List String),
      (∃ u ∈ cs, okOf tbl u = true) →
      ∃ u ∈ cs, chooseBestCandidate tbl cs = some u ∧ okOf tbl u = true)
    ∧ (∀ (tbl : HealthTable) (a b : String) (ra rb : HealthRecord),
      lookupHealth tbl a = some ra → lookupHealth tbl b = some rb →
      ra.ok = true → rb.ok = true → ra.lastChecked ≤ rb.lastChecked →
      chooseBest tbl [a, b] = some a)
    ∧ chooseBest
        [("A", ⟨false, 404, 3000, none⟩), ("B", ⟨true, 200, 2000, none⟩)]
        ["A", "B", "C"] = some "B"
    ∧ chooseBestCandidate
        [("A", ⟨false, 404, 3000, some 50⟩), ("B", ⟨true, 200, 2000, some 10⟩)]
        ["A", "B", "C"] = some "B" := by
  refine ⟨?_, ?_, ?_, by decide, by decide⟩
  · intro tbl cs hex
    cases cs with
    | nil => obtain ⟨u, hu, _⟩ := hex; cases hu
    | cons c0 rest =>
      have hex2 : ∃ x ∈ (c0 :: rest).map (scoredOf tbl), x.ok = true := by
        obtain ⟨u, hu, hok⟩ := hex
        exact ⟨scoredOf tbl u, List.mem_map_of_mem _ hu, by rw [scoredOf_ok]; exact hok⟩
      obtain ⟨x, hfind, hxmem, hxok⟩ :=
        find_sortBy_of_exists scoreLe (fun s => s.ok) _ hex2
      obtain ⟨u, hu, hux⟩ := List.mem_map.mp hxmem
      refine ⟨u, hu, ?_, ?_⟩
      · simp only [chooseBest]
        rw [hfind, ← hux]
        exact congrArg some (scoredOf_u tbl u)
      · rw [← scoredOf_ok, hux]
        exact hxok
  · intro tbl cs hex
    cases cs with
    | nil => obtain ⟨u, hu, _⟩ := hex; cases hu
    | cons c0 rest =>
      have hex2 : ∃ x ∈ (c0 :: rest).map (scoredCOf tbl), x.ok = true := by
        obtain ⟨u, hu, hok⟩ := hex
        exact ⟨scoredCOf tbl u, List.mem_map_of_mem _ hu, by rw [scoredCOf_ok]; exact hok⟩
      obtain ⟨x, hfind, hxmem, hxok⟩ :=
        find_sortBy_of_exists scoreCLe (fun s => s.ok) _ hex2
      obtain ⟨u, hu, hux⟩ := List.mem_map.mp hxmem
      refine ⟨u, hu, ?_, ?_⟩
      · simp only [chooseBestCandidate]
        rw [hfind, ← hux]
        exact congrArg some (scoredCOf_u tbl u)
      · rw [← scoredCOf_ok, hux]
        exact hxok
  · intro tbl a b ra rb ha hb hra hrb hle
    have hsa : scoredOf tbl a =
        { u := a, ok := ra.ok, lastChecked := ra.lastChecked,
          score1000 := (if ra.ok then 1000000 else 0) - (ra.lastChecked : Nat) } := by
      unfold scoredOf
      rw [ha]
    have hsb : scoredOf tbl b =
        { u := b, ok := rb.ok, lastChecked := rb.lastChecked,
          score1000 := (if rb.ok then 1000000 else 0) - (rb.lastChecked : Nat) } := by
      unfold scoredOf
      rw [hb]
    have hcmp : scoreLe (scoredOf tbl a) (scoredOf tbl b) = true := by
      rw [hsa, hsb]
      simp only [scoreLe, hra, hrb, if_pos, decide_eq_true_eq]
      omega
    have hsort : sortBy scoreLe ([a, b].map (scoredOf tbl)) =
        [scoredOf tbl a, scoredOf tbl b] := by
      simp only [List.map_cons, List.map_nil, sortBy, insertBy, hcmp, if_pos]
    have hfind : (sortBy scoreLe ([a, b].map (scoredOf tbl))).find?
        (fun s => s.ok) = some (scoredOf tbl a) := by
      rw [hsort]
      have : (scoredOf tbl a).ok = true := by rw [hsa]; exact hra
      simp [List.find?, this]
    simp only [chooseBest]
    rw [hfind]
    exact congrArg some (scoredOf_u tbl a)

/-- Witness for (amended) C2: one reachable candidate among two — the
selector returns a reachable one. -/
theorem selector_reachable_preferred_wit :
    ∃ u ∈ ["p", "q"],
      chooseBest [("q", ⟨true, 200, 5, none⟩)] ["p", "q"] = some u ∧
      okOf [("q", ⟨true, 200, 5, none⟩)] u = true :=
  selector_reachable_preferred.1 [("q", ⟨true, 200, 5, none⟩)] ["p", "q"]
    ⟨"q", by decide, by decide⟩

/-- Counterexample to C4: a snapshot with `ts = 5` (it exists), age
`6 - 5 = 1` far below the TTL `100`, but an EMPTY channel list: the cache
guard `playlistCache.items.length` fails, so `fetchPlaylist(false)` runs
the resolver (third component `true`) instead of returning the stored
snapshot with no I/O as the claim demands for every fresh snapshot
"including one whose channel list is empty". -/
theorem cache_empty_snapshot_refetch_cex :
    (fetchPlaylist false ⟨5, []⟩ 6 100 [] "" []).2.2 = true
    ∧ ((5 : Nat) ≠ 0 ∧ (6 : Int) - (5 : Int) < (100 : Int)) := by decide

/-- C4 as amended: a `fetchPlaylist(false)` call finding a snapshot that
exists (`ts ≠ 0`), is younger than the TTL, AND has a non-empty channel
list returns exactly that stored snapshot (same identity, cache state
unchanged) without invoking the resolver; a fresh-but-empty snapshot is
instead refreshed (see the counterexample). -/
theorem cache_fresh_nonempty_hit :
    ∀ (st : CacheState) (t ttl : Nat) (scraped : List Channel) (pu : String)
      (userItems : List Channel),
      st.ts ≠ 0 → (t : Int) - (st.ts : Int) < (ttl : Int) → st.items ≠ [] →
      fetchPlaylist false st t ttl scraped pu userItems = (st.items, st, false) := by
  intro st t ttl scraped pu userItems h1 h2 h3
  unfold fetchPlaylist
  rw [if_pos ⟨rfl, h1, h2, h3⟩]

/-- Witness for (amended) C4: a fresh non-empty snapshot is served from the
cache unchanged, with no resolver invocation. -/
theorem cache_fresh_nonempty_hit_wit :
    fetchPlaylist false ⟨5, fallbackItems⟩ 6 100 [] "" [] =
      (fallbackItems, ⟨5, fallbackItems⟩, false) :=
  cache_fresh_nonempty_hit ⟨5, fallbackItems⟩ 6 100 [] "" []
    (by decide) (by decide) (by decide)

/-- Counterexample to C5: TTL `10`, a snapshot taken at `t0 = 100`, and two
callers invoking `fetchPlaylist(false)` concurrently at `t0 + 2·TTL = 120`
(both evaluate the stale cache guard before either refresh completes, the
schedule `[0, 1, 0, 1]`): the run performs 2 resolver invocations, not the
single-flight 1 the claim demands. -/
theorem refresh_duplicate_invocations_cex :
    (runSchedule 120 10 130 [] (initSys ⟨100, fallbackItems⟩)
      [0, 1, 0, 1]).invocations = 2
    ∧ (2 : Nat) ≠ 1
    ∧ cacheFresh ⟨100, fallbackItems⟩ 120 10 = false := by decide

/-- C5 as amended: the code has no single-flight coordination — when `n`
concurrent callers all evaluate the stale-cache guard before any refresh
completes (the all-check-first interleaving `List.range n`), every one of
them invokes the resolver, for `n` duplicate upstream fetches in total. -/
theorem refresh_no_single_flight :
    ∀ (st : CacheState) (t ttl tDone : Nat) (newItems : List Channel) (n : Nat),
      cacheFresh st t ttl = false →
      (runSchedule t ttl tDone newItems (initSys st) (List.range n)).invocations = n := by
  intro st t ttl tDone newItems n h
  have hrun := runSchedule_all_start t ttl tDone newItems (List.range n)
    (initSys st) (List.nodup_range n) (fun i _ => rfl) h
  simpa [initSys] using hrun

/-- Witness for (amended) C5: three concurrent callers on a stale cache
trigger three resolver invocations. -/
theorem refresh_no_single_flight_wit :
    (runSchedule 120 10 130 [] (initSys ⟨100, fallbackItems⟩)
      (List.range 3)).invocations = 3 :=
  refresh_no_single_flight ⟨100, fallbackItems⟩ 120 10 130 [] 3 (by decide)

/-- Counterexample to C8: the decoded target of `GET /proxy/` is empty, yet
the middleware forwards it (attempting the upstream connection) instead of
answering a client error; a malformed escape (`%zz`) makes the rewrite
throw — surfacing as a server-side failure — again not a client-error
response. -/
theorem proxy_empty_target_forwarded_cex :
    proxyHandle "/proxy/" = .forward ""
    ∧ ProxyOutcome.forward "" ≠ ProxyOutcome.clientError
    ∧ proxyHandle "/proxy/a%zzb" = .thrown
    ∧ ProxyOutcome.thrown ≠ ProxyOutcome.clientError := by decide

/-- C8 as amended: the `src/server.js` proxy entry point URL-decodes the
embedded target exactly once — a doubly-encoded target comes out decoded a
single time (`a%2520b ↦ a%20b`, not the twice-decoded `a b`), and a
singly-encoded one comes out fully decoded (`a%20b ↦ a b`, never zero
times) — but it performs no validation: the empty target is forwarded
unconditionally to the upstream connection attempt, and a malformed
percent-escape makes `pathRewrite` throw; neither case produces a
client-error response. -/
theorem proxy_decode_once_no_validation :
    proxyHandle "/proxy/a%2520b" = .forward "a%20b"
    ∧ decodeURIComponent "a%20b" = some "a b"
    ∧ ("a%20b" : String) ≠ "a b"
    ∧ proxyHandle "/proxy/a%20b" = .forward "a b"
    ∧ proxyHandle "/proxy/" = .forward ""
    ∧ proxyHandle "/proxy/a%zzb" = .thrown := by decide

/-- Counterexample to C9: the raw entry with `url = ","` has no resolvable
URL left after delimiter-splitting (splitting "," yields only empty
pieces), yet normalization RETAINS it — with the raw string as its single
candidate (the `parts.length ? parts : [urlString]` fallback) — instead of
dropping it. -/
theorem normalize_retains_delimiter_only_cex :
    (normalizeItems [⟨none, some ",", none, none⟩]).map (fun c => c.candidates)
      = [[","]]
    ∧ normalizeItems [⟨none, some ",", none, none⟩] ≠ [] := by decide

/-- C9 as amended: every channel in any normalized snapshot has a non-empty
candidates list — entries whose `url` field is missing or empty are
dropped (the output has exactly one channel per retained entry), the
static fallback channels have non-empty candidates, and every refresh
(cache hit or resolver run over invariant-satisfying inputs) preserves the
invariant — but an entry whose non-empty `url` yields no pieces after
delimiter-splitting is retained with the raw string as its single
candidate, not dropped (see the counterexample). -/
theorem normalize_nonempty_candidates :
    ∀ (items : List RawItem) (st : CacheState) (t ttl : Nat) (force : Bool)
      (scraped userItems : List Channel) (pu : String),
      (∀ ch ∈ normalizeItems items, ch.candidates ≠ [])
      ∧ (normalizeItems items).length =
          (items.filter (fun i => rawUrl i ≠ "")).length
      ∧ (∀ ch ∈ fallbackItems, ch.candidates ≠ [])
      ∧ ((∀ ch ∈ scraped, ch.candidates ≠ []) →
         (∀ ch ∈ userItems, ch.candidates ≠ []) →
         (∀ ch ∈ st.items, ch.candidates ≠ []) →
         ∀ ch ∈ (fetchPlaylist force st t ttl scraped pu userItems).1,
           ch.candidates ≠ []) := by
  intro items st t ttl force scraped userItems pu
  refine ⟨?_, length_normalizeFiltered _ 0, fallbackItems_candidates_ne_nil, ?_⟩
  · intro ch hch
    obtain ⟨it, hit, hc⟩ := mem_normalizeFiltered ch _ 0 hch
    have hu : rawUrl it ≠ "" := by
      have := List.mem_filter.mp hit
      simpa using this.2
    rw [hc]
    exact splitCandidates_ne_nil _ hu
  · intro h1 h2 h3 ch hch
    unfold fetchPlaylist at hch
    by_cases hg : force = false ∧ st.ts ≠ 0 ∧
        (t : Int) - (st.ts : Int) < (ttl : Int) ∧ st.items ≠ []
    · rw [if_pos hg] at hch
      exact h3 ch hch
    · rw [if_neg hg] at hch
      exact resolveItems_candidates_ne_nil scraped userItems pu h1 h2 ch hch

/-- Witness for (amended) C9: the invariant conclusion of the
refresh-preservation conjunct, instantiated at a concrete scrape result
flowing through a forced refresh. -/
theorem normalize_nonempty_candidates_wit :
    (Channel.mk "i" "n" "g" none ["x"]).candidates ≠ [] :=
  (normalize_nonempty_candidates [] ⟨0, []⟩ 9 100 true
      [⟨"i", "n", "g", none, ["x"]⟩] [] "").2.2.2
    (by decide) (by decide) (by decide) _ (by decide)

end Stremcri
